import Mathlib

/-!
# MetryoAuthConnect: a verification development

A shallow embedding of `src/metry-oauth-connect.js`.

* A JavaScript string is the list of its UTF-16 code units, each a natural number
  below `2 ^ 16`.  No definition or theorem below depends on that bound.
* `null` / `undefined` results are `none`; a thrown exception of a built-in
  (`encodeURIComponent` raises `URIError` on a lone surrogate) is `none` as well,
  in the `Option` returned by the functions that can throw.
* The promise chain of `handleAuthCode` is run on an explicit description of what
  the network and the environment answer, and produces the list of observable
  effects in the order they happen.
* The polling timer of `openAuthenticatePopup` is a step function over the
  observations made at each firing of the interval.
-/

set_option maxRecDepth 100000

namespace MetryOAuth

/-! ## Strings -/

/-- A JavaScript string: its UTF-16 code units. -/
abbrev JSString := List Nat

/-- The JavaScript string written by a literal: the UTF-16 encoding of its characters. -/
def js (s : String) : JSString :=
  s.toList.flatMap fun c =>
    if c.toNat < 65536 then [c.toNat]
    else [55296 + (c.toNat - 65536) / 1024, 56320 + (c.toNat - 65536) % 1024]

/-! ## The built-in `encodeURIComponent` (ECMAScript `Encode` with the unreserved set
`A-Z a-z 0-9 - _ . ! ~ * ' ( )`) -/

/-- Membership in the set of code units `encodeURIComponent` leaves untouched. -/
def isUnreserved (c : Nat) : Bool :=
  (65 ≤ c && c ≤ 90) || (97 ≤ c && c ≤ 122) || (48 ≤ c && c ≤ 57) ||
    c == 45 || c == 95 || c == 46 || c == 33 || c == 126 || c == 42 || c == 39 ||
    c == 40 || c == 41

/-- Leading (high) surrogate `0xD800 .. 0xDBFF`. -/
def isLeadingSurrogate (c : Nat) : Bool := 55296 ≤ c && c ≤ 56319

/-- Trailing (low) surrogate `0xDC00 .. 0xDFFF`. -/
def isTrailingSurrogate (c : Nat) : Bool := 56320 ≤ c && c ≤ 57343

/-- One upper-case hexadecimal digit, as a code unit. -/
def hexDigit (n : Nat) : Nat := if n < 10 then 48 + n else 55 + n

/-- The escape `%XY` of one octet. -/
def percentEncode (octet : Nat) : JSString :=
  [37, hexDigit (octet / 16 % 16), hexDigit (octet % 16)]

/-- UTF-8 octets of a code point. -/
def utf8 (cp : Nat) : List Nat :=
  if cp < 128 then [cp]
  else if cp < 2048 then [192 + cp / 64, 128 + cp % 64]
  else if cp < 65536 then [224 + cp / 4096, 128 + cp / 64 % 64, 128 + cp % 64]
  else [240 + cp / 262144, 128 + cp / 4096 % 64, 128 + cp / 64 % 64, 128 + cp % 64]

/-- The escapes of all UTF-8 octets of a code point. -/
def escapeCodePoint (cp : Nat) : JSString := (utf8 cp).flatMap percentEncode

/-- The built-in `encodeURIComponent` on a string; `none` is the `URIError` thrown at a lone
surrogate. -/
def encodeURIComponent : JSString → Option JSString
  | [] => some []
  | [c] =>
    if isUnreserved c then some [c]
    else if isLeadingSurrogate c || isTrailingSurrogate c then none
    else some (escapeCodePoint c)
  | c :: d :: rest =>
    if isUnreserved c then (encodeURIComponent (d :: rest)).map (c :: ·)
    else if isTrailingSurrogate c then none
    else if isLeadingSurrogate c then
      if isTrailingSurrogate d then
        (encodeURIComponent rest).map
          (escapeCodePoint ((c - 55296) * 1024 + (d - 56320) + 65536) ++ ·)
      else none
    else (encodeURIComponent (d :: rest)).map (escapeCodePoint c ++ ·)

/-! ## Configuration -/

/-- The options object handed to the constructor (`this.authConfig`).  `scope` may be left out
(`undefined`); `onSuccess` is `none` when it is not a function.  A callback is described by what
it does to the control flow: `none` when it returns, `some e` when it throws `e`. -/
structure AuthConfig (ε δ : Type) where
  clientId : JSString
  clientSecret : JSString
  redirectUri : JSString
  scope : Option JSString
  onSuccess : Option (δ → Option ε)

/-- The constant `this.BASE_URL`. -/
def BASE_URL : JSString := js "https://app.metry.io/"

/-- The constant `this.PATH_TOKEN`. -/
def PATH_TOKEN : JSString := js "oauth/token"

/-- The constant `this.PATH_AUTHORIZE`. -/
def PATH_AUTHORIZE : JSString := js "oauth/authorize"

/-- The expression `this.authConfig.scope || 'basic'`: an undefined or empty scope is falsy. -/
def scopeOrBasic (scope : Option JSString) : JSString :=
  match scope with
  | none => js "basic"
  | some s => if s = [] then js "basic" else s

/-! ## `makeUrl` -/

/-- The replacement `component.replace(/^\/|\/$/, '')`: without the `g` flag only the leftmost
match goes, a leading slash if there is one, otherwise a trailing slash. -/
def stripSlash (component : JSString) : JSString :=
  if component.head? = some 47 then component.tail
  else if component.getLast? = some 47 then component.dropLast
  else component

/-- The first loop of `makeUrl`: it stops at the first `null` component. -/
def fullPath : List (Option JSString) → List JSString
  | [] => []
  | none :: _ => []
  | some component :: rest => stripSlash component :: fullPath rest

/-- The second loop of `makeUrl`, over the own keys of `params` in enumeration order. -/
def appendParams (path : JSString) : List (JSString × JSString) → Option JSString
  | [] => some path
  | (key, value) :: rest =>
    match encodeURIComponent value with
    | none => none
    | some e => appendParams (path ++ key ++ [61] ++ e ++ [38]) rest

/-- The method `makeUrl(components, params)`.  `params` is `none` when the argument is not an
object (`typeof params !== 'object'`), otherwise its entries in enumeration order. -/
def makeUrl (components : List (Option JSString))
    (params : Option (List (JSString × JSString))) : Option JSString :=
  let path := List.intercalate [47] (fullPath components) ++ [63]
  let path :=
    match params with
    | some ps => appendParams path ps
    | none => some path
  path.map List.dropLast

/-- The object literal `params` of `authorizeUrl`, in the order its keys are written. -/
def authorizeParams {ε δ : Type} (cfg : AuthConfig ε δ) : List (JSString × JSString) :=
  [ (js "client_secret", cfg.clientSecret),
    (js "client_id", cfg.clientId),
    (js "redirect_uri", cfg.redirectUri),
    (js "grant_type", js "authorization_code"),
    (js "response_type", js "code"),
    (js "state", js "emAuth"),
    (js "scope", scopeOrBasic cfg.scope) ]

/-- The method `authorizeUrl()`. -/
def authorizeUrl {ε δ : Type} (cfg : AuthConfig ε δ) : Option JSString :=
  makeUrl [some BASE_URL, some PATH_AUTHORIZE] (some (authorizeParams cfg))

/-! ## `getParam` -/

/-- The names `getParam` is modelled for: those made of letters, digits and `_` only.  Spliced
into the pattern source, such a name has no pattern metacharacter, so it matches itself and
nothing else, and the two bracket escapes of `getParam` leave it alone.  Any other name is
compiled as part of the pattern (`.` matches any code unit, an unbalanced `(` is a
`SyntaxError`) and is outside this model. -/
def isPlainName (name : JSString) : Bool :=
  name.all fun c => (65 ≤ c && c ≤ 90) || (97 ≤ c && c ≤ 122) || (48 ≤ c && c ≤ 57) || c == 95

/-- One attempt of the pattern `[\?&]` + name + `=([^&#]*)` at the start of `s`, for a name
with `isPlainName`: the captured group on success.  Every name this development passes
(`code` and the seven keys of the authorize URL) is such a name. -/
def matchAt (name : JSString) (s : JSString) : Option JSString :=
  match s with
  | [] => none
  | c :: t =>
    if c = 63 ∨ c = 38 then
      if (name ++ [61]).isPrefixOf t then
        some ((t.drop (name.length + 1)).takeWhile fun x => x != 38 && x != 35)
      else none
    else none

/-- The call `regex.exec(url)` for a non-global pattern, reduced to its first capture group: the
leftmost start index at which the pattern matches wins. -/
def exec (name : JSString) : JSString → Option JSString
  | [] => none
  | c :: t =>
    match matchAt name (c :: t) with
    | some v => some v
    | none => exec name t

/-- The method `getParam(name, url)` for a name with `isPlainName`; `none` is `null`. -/
def getParam (name url : JSString) : Option JSString := exec name url

/-! ## Token requests -/

/-- A `FormData` body: its entries in the order of the `append` calls. -/
abbrev FormData := List (JSString × JSString)

/-- All values stored in a form under a field name. -/
def FormData.getAll (form : FormData) (name : JSString) : List JSString :=
  (form.filter fun entry => decide (entry.1 = name)).map Prod.snd

/-- The arguments of a `fetch` call. -/
structure Request where
  url : JSString
  method : JSString
  body : FormData
deriving DecidableEq

/-- The synchronous part of `handleAuthCode(code)`: the `fetch` call it issues; `none` when
building its URL throws. -/
def handleAuthCodeRequest {ε δ : Type} (cfg : AuthConfig ε δ) (code : JSString) :
    Option Request :=
  (makeUrl [some BASE_URL, some PATH_TOKEN] (some [])).map fun url =>
    { url := url
      method := js "POST"
      body :=
        [ (js "grant_type", js "authorization_code"),
          (js "code", code),
          (js "client_id", cfg.clientId),
          (js "client_secret", cfg.clientSecret),
          (js "state", js ""),
          (js "scope", scopeOrBasic cfg.scope),
          (js "redirect_uri", cfg.redirectUri) ] }

/-- The `fetch` call issued by `fetchAccessToken(refreshToken)`; `makeUrl` gets no `params`
argument there. -/
def fetchAccessTokenRequest {ε δ : Type} (cfg : AuthConfig ε δ) (refreshToken : JSString) :
    Option Request :=
  (makeUrl [some BASE_URL, some PATH_TOKEN] none).map fun url =>
    { url := url
      method := js "POST"
      body :=
        [ (js "client_id", cfg.clientId),
          (js "client_secret", cfg.clientSecret),
          (js "grant_type", js "refresh_token"),
          (js "scope", scopeOrBasic cfg.scope),
          (js "refresh_token", refreshToken) ] }

/-! ## The promise chain of `handleAuthCode` -/

/-- A DOM custom event, as far as the program sets it up. -/
structure CustomEvent (δ : Type) where
  type : JSString
  bubbles : Bool
  cancelable : Bool
  detail : δ

/-- The dictionary given to the `CustomEvent` constructor; a member left out is `none`. -/
structure CustomEventInit (δ : Type) where
  bubbles : Option Bool
  cancelable : Option Bool
  detail : δ

/-- The constructor `new CustomEvent(type, init)`: `bubbles` and `cancelable` default to
`false`. -/
def newCustomEvent {δ : Type} (type : JSString) (init : CustomEventInit δ) : CustomEvent δ :=
  { type := type
    bubbles := init.bubbles.getD false
    cancelable := init.cancelable.getD false
    detail := init.detail }

/-- The legacy pair `document.createEvent('CustomEvent')` and
`event.initCustomEvent(type, canBubble, cancelable, detail)`. -/
def initCustomEvent {δ : Type} (type : JSString) (canBubble cancelable : Bool) (detail : δ) :
    CustomEvent δ :=
  { type := type, bubbles := canBubble, cancelable := cancelable, detail := detail }

/-- What `handleAuthCode` does to the outside world once its request has settled. -/
inductive Effect (ε δ : Type) where
  | callback (data : δ)
  | dispatch (event : CustomEvent δ)
  | log (e : ε)

/-- The response object a fulfilled `fetch` yields: what its `json()` promise settles to. -/
structure Response (ε δ : Type) where
  json : Except ε δ

/-- A settled computation: the effects performed on the way and the value or the thrown error. -/
structure Run (ε δ α : Type) where
  effects : List (Effect ε δ)
  result : Except ε α

/-- A computation that settles at once, without effects. -/
def Run.settled {ε δ α : Type} (r : Except ε α) : Run ε δ α := ⟨[], r⟩

/-- The continuation of `.then(f)`, and of the next statement after one that may throw: `f` runs
only on a value. -/
def Run.andThen {ε δ α β : Type} (p : Run ε δ α) (f : α → Run ε δ β) : Run ε δ β :=
  match p.result with
  | .ok a => ⟨p.effects ++ (f a).effects, (f a).result⟩
  | .error e => ⟨p.effects, .error e⟩

/-- The continuation of `.catch(h)`: `h` runs only on an error. -/
def Run.orCatch {ε δ α : Type} (p : Run ε δ α) (h : ε → Run ε δ α) : Run ε δ α :=
  match p.result with
  | .ok a => ⟨p.effects, .ok a⟩
  | .error e => ⟨p.effects ++ (h e).effects, (h e).result⟩

/-- The statement `if (typeof onSuccess === 'function') onSuccess(data)`. -/
def callOnSuccess {ε δ : Type} (cfg : AuthConfig ε δ) (data : δ) : Run ε δ Unit :=
  match cfg.onSuccess with
  | none => ⟨[], .ok ()⟩
  | some f =>
    match f data with
    | none => ⟨[Effect.callback data], .ok ()⟩
    | some e => ⟨[Effect.callback data], .error e⟩

/-- The event built in the handler; `hasCustomEvent` is the truth value of
`window.CustomEvent`. -/
def gotTokenEvent {δ : Type} (hasCustomEvent : Bool) (data : δ) : CustomEvent δ :=
  if hasCustomEvent then
    newCustomEvent (js "Metry:GotToken") { bubbles := none, cancelable := none, detail := data }
  else
    initCustomEvent (js "Metry:GotToken") true true data

/-- The handler `data => { ... }` of the second `.then`. -/
def onData {ε δ : Type} (cfg : AuthConfig ε δ) (hasCustomEvent : Bool) (data : δ) :
    Run ε δ Unit :=
  (callOnSuccess cfg data).andThen fun _ =>
    ⟨[Effect.dispatch (gotTokenEvent hasCustomEvent data)], .ok ()⟩

/-- The chain `fetch(...).then(response => response.json()).then(data => ...).catch(e => ...)`,
run on what `fetch` settles to. -/
def handleAuthCodeSettle {ε δ : Type} (cfg : AuthConfig ε δ) (hasCustomEvent : Bool)
    (net : Except ε (Response ε δ)) : Run ε δ Unit :=
  (((Run.settled net).andThen fun response => Run.settled response.json).andThen
      fun data => onData cfg hasCustomEvent data).orCatch
    fun e => ⟨[Effect.log e], .ok ()⟩

/-- The method `handleAuthCode(code)`: the request it issues and the settled chain; `none` when
the call itself throws. -/
def handleAuthCode {ε δ : Type} (cfg : AuthConfig ε δ) (hasCustomEvent : Bool)
    (code : JSString) (net : Except ε (Response ε δ)) : Option (Request × Run ε δ Unit) :=
  (handleAuthCodeRequest cfg code).map fun request =>
    (request, handleAuthCodeSettle cfg hasCustomEvent net)

/-- The arguments of the `onSuccess` calls among some effects. -/
def callbackArgs {ε δ : Type} : List (Effect ε δ) → List δ
  | [] => []
  | Effect.callback d :: rest => d :: callbackArgs rest
  | _ :: rest => callbackArgs rest

/-- The events given to `document.dispatchEvent` among some effects. -/
def dispatched {ε δ : Type} : List (Effect ε δ) → List (CustomEvent δ)
  | [] => []
  | Effect.dispatch ev :: rest => ev :: dispatched rest
  | _ :: rest => dispatched rest

/-- The values given to `console.log` among some effects. -/
def logged {ε δ : Type} : List (Effect ε δ) → List ε
  | [] => []
  | Effect.log e :: rest => e :: logged rest
  | _ :: rest => logged rest

/-! ## The popup flow -/

/-- What one firing of the interval sees: `authWindow.closed`, and `authWindow.document.URL`,
`none` when reading it throws (cross-origin). -/
structure Observation where
  closed : Bool
  url : Option JSString

/-- The state of one popup flow. -/
structure Flow where
  opened : JSString
  intervalActive : Bool
  callbackRuns : Nat
  closeCalls : Nat
  handled : List JSString
  requests : List Request
deriving DecidableEq

/-- The method `openAuthenticatePopup()` up to `setInterval`: `window.open` on the authorize URL
(taken to return a window) and a running interval; `none` when `authorizeUrl()` throws. -/
def openAuthenticatePopup {ε δ : Type} (cfg : AuthConfig ε δ) : Option Flow :=
  (authorizeUrl cfg).map fun authUrl =>
    { opened := authUrl
      intervalActive := true
      callbackRuns := 0
      closeCalls := 0
      handled := []
      requests := [] }

/-- The body of the interval callback. -/
def tick {ε δ : Type} (cfg : AuthConfig ε δ) (obs : Observation) (st : Flow) : Flow :=
  if obs.closed then { st with intervalActive := false }
  else
    match obs.url with
    | none => st
    | some url =>
      match getParam (js "code") url with
      | none => st
      | some code =>
        if code ≠ [] then
          { st with
            intervalActive := false
            closeCalls := st.closeCalls + 1
            handled := st.handled ++ [code]
            requests := st.requests ++ (handleAuthCodeRequest cfg code).toList }
        else st

/-- One firing of the interval: the callback runs only while the interval has not been
cleared. -/
def fire {ε δ : Type} (cfg : AuthConfig ε δ) (st : Flow) (obs : Observation) : Flow :=
  if st.intervalActive then tick cfg obs { st with callbackRuns := st.callbackRuns + 1 }
  else st

/-- The flow after a sequence of firings. -/
def poll {ε δ : Type} (cfg : AuthConfig ε δ) (ticks : List Observation) (st : Flow) : Flow :=
  ticks.foldl (fire cfg) st

/-! ## Notions used to state the properties -/

/-- Code units that neither separate query parameters nor end a captured value. -/
def isQuerySafe (x : Nat) : Bool := x != 38 && x != 35 && x != 63 && x != 61

/-- An occurrence of `?name=` or `&name=` in `url` at index `i`. -/
def keyAt (name url : JSString) (i : Nat) : Bool :=
  (63 :: (name ++ [61])).isPrefixOf (url.drop i) ||
    (38 :: (name ++ [61])).isPrefixOf (url.drop i)

/-- The parameters `&key=value` one after the other. -/
def queryTail (ps : List (JSString × JSString)) : JSString :=
  ps.flatMap fun p => 38 :: (p.1 ++ 61 :: p.2)

/-- The first value stored under a key in a parameter list. -/
def firstValue (name : JSString) : List (JSString × JSString) → Option JSString
  | [] => none
  | (k, e) :: rest => if name = k then some e else firstValue name rest

/-- The parameters of the authorize URL with the four configured values already encoded. -/
def encodedParams (e1 e2 e3 e4 : JSString) : List (JSString × JSString) :=
  [ (js "client_secret", e1),
    (js "client_id", e2),
    (js "redirect_uri", e3),
    (js "grant_type", js "authorization_code"),
    (js "response_type", js "code"),
    (js "state", js "emAuth"),
    (js "scope", e4) ]

/-- The query component of a URL in the words of the claim: the text after the first `?` and
before the first `#`. -/
def queryComponent (url : JSString) : JSString :=
  ((url.takeWhile fun x => x != 35).dropWhile fun x => x != 63).drop 1

/-- The names of the parameters of the query component: it is cut at every `&`, and a name ends
at the first `=`. -/
def queryParamNames (url : JSString) : List JSString :=
  ((queryComponent url).splitOn 38).map fun p => p.takeWhile fun x => x != 61

/-- Well-formed UTF-16: every surrogate is part of a leading-trailing pair. -/
def isWellFormed : JSString → Bool
  | [] => true
  | [c] => !(isLeadingSurrogate c || isTrailingSurrogate c)
  | c :: d :: rest =>
    if isTrailingSurrogate c then false
    else if isLeadingSurrogate c then isTrailingSurrogate d && isWellFormed rest
    else isWellFormed (d :: rest)

/-! ## Concrete inputs -/

/-- A configuration whose values are full of separators. -/
def hostileConfig : AuthConfig Unit Unit :=
  { clientId := js "x&code=1#y"
    clientSecret := js "s?client_id=z"
    redirectUri := js "https://example.com/cb?a=b"
    scope := none
    onSuccess := none }

/-- The authorize URL of `hostileConfig`. -/
def hostileUrl : JSString :=
  js ("https://app.metry.io/oauth/authorize?client_secret=s%3Fclient_id%3Dz" ++
    "&client_id=x%26code%3D1%23y&redirect_uri=https%3A%2F%2Fexample.com%2Fcb%3Fa%3Db" ++
    "&grant_type=authorization_code&response_type=code&state=emAuth&scope=basic")

/-- A configuration whose scope is the empty string. -/
def emptyScopeConfig : AuthConfig Unit Unit :=
  { clientId := js "id"
    clientSecret := js "secret"
    redirectUri := js "https://example.com/cb"
    scope := some (js "")
    onSuccess := none }

/-- A configuration with a supplied scope. -/
def readScopeConfig : AuthConfig Unit Unit :=
  { clientId := js "id"
    clientSecret := js "secret"
    redirectUri := js "https://example.com/cb"
    scope := some (js "read write")
    onSuccess := none }

/-- A configuration whose success callback throws. -/
def throwingConfig : AuthConfig JSString Nat :=
  { clientId := js "id"
    clientSecret := js "secret"
    redirectUri := js "https://example.com/cb"
    scope := none
    onSuccess := some fun _ => some (js "boom") }

/-- A configuration whose success callback returns. -/
def quietConfig : AuthConfig JSString Nat :=
  { clientId := js "id"
    clientSecret := js "secret"
    redirectUri := js "https://example.com/cb"
    scope := none
    onSuccess := some fun _ => none }

/-- The flow `openAuthenticatePopup` starts for `quietConfig`. -/
def sampleFlow : Flow :=
  { opened := js ("https://app.metry.io/oauth/authorize?client_secret=secret&client_id=id" ++
      "&redirect_uri=https%3A%2F%2Fexample.com%2Fcb&grant_type=authorization_code" ++
      "&response_type=code&state=emAuth&scope=basic")
    intervalActive := true
    callbackRuns := 0
    closeCalls := 0
    handled := []
    requests := [] }

/-- Firings that find nothing: a cross-origin read, a URL without a code, an empty code. -/
def sampleQuiet : List Observation :=
  [ ⟨false, none⟩,
    ⟨false, some (js "https://example.com/cb")⟩,
    ⟨false, some (js "https://example.com/cb?code=&state=emAuth")⟩ ]

/-- A firing that reads the redirected URL. -/
def sampleFound : Observation :=
  ⟨false, some (js "https://example.com/cb?code=ABC123&state=emAuth")⟩

/-! ## Lemmas on `encodeURIComponent` -/

theorem isQuerySafe_of_isUnreserved {c : Nat} (h : isUnreserved c = true) :
    isQuerySafe c = true := by
  simp only [isUnreserved, Bool.or_eq_true, Bool.and_eq_true, decide_eq_true_eq,
    beq_iff_eq] at h
  simp only [isQuerySafe, Bool.and_eq_true, bne_iff_ne, ne_eq]
  omega

theorem isQuerySafe_hexDigit (n : Nat) : isQuerySafe (hexDigit n) = true := by
  simp only [isQuerySafe, hexDigit, Bool.and_eq_true, bne_iff_ne, ne_eq]
  split <;> omega

theorem isQuerySafe_percentEncode (octet x : Nat) (hx : x ∈ percentEncode octet) :
    isQuerySafe x = true := by
  simp only [percentEncode, List.mem_cons, List.mem_singleton, List.not_mem_nil, or_false] at hx
  rcases hx with rfl | rfl | rfl
  · decide
  · exact isQuerySafe_hexDigit _
  · exact isQuerySafe_hexDigit _

theorem isQuerySafe_escapeCodePoint (cp x : Nat) (hx : x ∈ escapeCodePoint cp) :
    isQuerySafe x = true := by
  simp only [escapeCodePoint, List.mem_flatMap] at hx
  obtain ⟨octet, _, hmem⟩ := hx
  exact isQuerySafe_percentEncode octet x hmem

/-- No code unit produced by `encodeURIComponent` is `&`, `#`, `?` or `=`. -/
theorem isQuerySafe_encodeURIComponent (s : JSString) :
    ∀ e, encodeURIComponent s = some e → ∀ x ∈ e, isQuerySafe x = true := by
  induction s using encodeURIComponent.induct with
  | case1 => intro e h x hx; simp [encodeURIComponent] at h; subst h; simp at hx
  | case2 c hc =>
    intro e h x hx
    simp [encodeURIComponent, hc] at h; subst h
    simp at hx; subst hx; exact isQuerySafe_of_isUnreserved hc
  | case3 c hc hs =>
    intro e h x hx
    simp [encodeURIComponent, hc] at h
    simp only [Bool.or_eq_true] at hs
    rcases hs with hs | hs <;> simp [hs] at h
  | case4 c hc hs =>
    intro e h x hx
    simp [encodeURIComponent, hc] at h
    simp at hs
    simp [hs] at h
    subst h
    exact isQuerySafe_escapeCodePoint _ _ hx
  | case5 c d rest hc ih =>
    intro e h x hx
    simp [encodeURIComponent, hc] at h
    obtain ⟨e', he', rfl⟩ := h
    simp at hx
    rcases hx with rfl | hx
    · exact isQuerySafe_of_isUnreserved hc
    · exact ih e' he' x hx
  | case6 c d rest hc ht =>
    intro e h x hx
    simp [encodeURIComponent, hc, ht] at h
  | case7 c d rest hc ht hl hd ih =>
    intro e h x hx
    simp [encodeURIComponent, hc, ht, hl, hd] at h
    obtain ⟨e', he', rfl⟩ := h
    simp at hx
    rcases hx with hx | hx
    · exact isQuerySafe_escapeCodePoint _ _ hx
    · exact ih e' he' x hx
  | case8 c d rest hc ht hl hd =>
    intro e h x hx
    simp [encodeURIComponent, hc, ht, hl, hd] at h
  | case9 c d rest hc ht hl ih =>
    intro e h x hx
    simp [encodeURIComponent, hc, ht, hl] at h
    obtain ⟨e', he', rfl⟩ := h
    simp at hx
    rcases hx with hx | hx
    · exact isQuerySafe_escapeCodePoint _ _ hx
    · exact ih e' he' x hx

/-! ## Lemmas on the pattern of `getParam` -/

theorem matchAt_eq_none_iff (name s : JSString) :
    matchAt name s = none ↔ keyAt name s 0 = false := by
  cases s with
  | nil => simp [matchAt, keyAt, List.isPrefixOf]
  | cons c t =>
    by_cases h63 : c = 63
    · subst h63
      cases hp : (name ++ [61]).isPrefixOf t <;> simp [matchAt, keyAt, List.isPrefixOf, hp]
    · by_cases h38 : c = 38
      · subst h38
        cases hp : (name ++ [61]).isPrefixOf t <;> simp [matchAt, keyAt, List.isPrefixOf, hp]
      · have h1 : ¬ (63 = c) := fun h => h63 h.symm
        have h2 : ¬ (38 = c) := fun h => h38 h.symm
        simp [matchAt, keyAt, List.isPrefixOf, h63, h38, h1, h2]

theorem keyAt_succ (name : JSString) (c : Nat) (t : JSString) (i : Nat) :
    keyAt name (c :: t) (i + 1) = keyAt name t i := by
  simp [keyAt]

/-- The scan finds nothing exactly when the key occurs nowhere. -/
theorem exec_eq_none_iff (name url : JSString) :
    exec name url = none ↔ ∀ i, keyAt name url i = false := by
  induction url with
  | nil =>
    simp [exec, keyAt, List.isPrefixOf]
  | cons c t ih =>
    constructor
    · intro h i
      unfold exec at h
      cases hm : matchAt name (c :: t) with
      | some v => simp [hm] at h
      | none =>
        simp only [hm] at h
        cases i with
        | zero => exact (matchAt_eq_none_iff name (c :: t)).1 hm
        | succ j => rw [keyAt_succ]; exact ih.1 h j
    · intro h
      unfold exec
      have hm : matchAt name (c :: t) = none := (matchAt_eq_none_iff name (c :: t)).2 (h 0)
      simp only [hm]
      exact ih.2 fun i => by rw [← keyAt_succ name c t i]; exact h (i + 1)

/-- The scan passes over a prefix in which the key does not occur. -/
theorem exec_skip_clean (name : JSString) (p s : JSString)
    (h : ∀ i, i < p.length → keyAt name (p ++ s) i = false) :
    exec name (p ++ s) = exec name s := by
  induction p with
  | nil => rfl
  | cons c t ih =>
    have hm : matchAt name (c :: (t ++ s)) = none :=
      (matchAt_eq_none_iff name (c :: (t ++ s))).2 (h 0 (by simp))
    have hstep : exec name (c :: (t ++ s)) = exec name (t ++ s) := by
      rw [exec]; simp only [hm]
    rw [List.cons_append, hstep]
    apply ih
    intro i hi
    rw [← keyAt_succ name c (t ++ s) i]
    exact h (i + 1) (by simpa using hi)

/-- The scan passes over code units that are neither `?` nor `&`. -/
theorem exec_skip_plain (name : JSString) (p s : JSString)
    (h : ∀ x ∈ p, x ≠ 63 ∧ x ≠ 38) : exec name (p ++ s) = exec name s := by
  induction p with
  | nil => rfl
  | cons c t ih =>
    have hc := h c (List.mem_cons_self _ _)
    have hm : matchAt name (c :: (t ++ s)) = none := by
      simp [matchAt, hc.1, hc.2]
    rw [List.cons_append, exec]
    simp only [hm]
    exact ih fun x hx => h x (List.mem_cons_of_mem _ hx)

/-- The capture group takes the value up to the first `&` or `#`. -/
theorem takeWhile_value (v rest : JSString) (hv : ∀ x ∈ v, x ≠ 38 ∧ x ≠ 35)
    (hrest : ∀ x, rest.head? = some x → x = 38 ∨ x = 35) :
    (v ++ rest).takeWhile (fun x => x != 38 && x != 35) = v := by
  induction v with
  | nil =>
    cases rest with
    | nil => rfl
    | cons r t =>
      have hr := hrest r rfl
      rcases hr with rfl | rfl <;> simp [List.takeWhile]
  | cons c t ih =>
    have hc := hv c (List.mem_cons_self _ _)
    have hp : (c != 38 && c != 35) = true := by simp [hc.1, hc.2]
    rw [List.cons_append, List.takeWhile_cons, hp]
    simp only [↓reduceIte, List.cons.injEq, true_and]
    exact ih fun x hx => hv x (List.mem_cons_of_mem _ hx)

theorem isPrefixOf_append_self (name t : JSString) :
    (name ++ [61]).isPrefixOf (name ++ 61 :: t) = true := by
  induction name with
  | nil => simp [List.isPrefixOf]
  | cons a n ih => simp [List.isPrefixOf, ih]

/-- A match at a separator that is followed by the name, `=`, and a value that stops at `&`, `#`
or the end. -/
theorem matchAt_hit (name v rest : JSString) (sep : Nat) (hsep : sep = 63 ∨ sep = 38)
    (hv : ∀ x ∈ v, x ≠ 38 ∧ x ≠ 35)
    (hrest : ∀ x, rest.head? = some x → x = 38 ∨ x = 35) :
    matchAt name (sep :: (name ++ 61 :: (v ++ rest))) = some v := by
  have hdrop : (name ++ 61 :: (v ++ rest)).drop (name.length + 1) = v ++ rest := by
    have : name ++ 61 :: (v ++ rest) = (name ++ [61]) ++ (v ++ rest) := by simp
    rw [this]
    exact List.drop_left' (by simp)
  simp only [matchAt, hsep, ↓reduceIte, isPrefixOf_append_self, hdrop]
  rw [takeWhile_value v rest hv hrest]

/-- With no `=` inside either key, `name=` is a prefix of `key=...` only for `name = key`. -/
theorem isPrefixOf_key (name key t : JSString) (hname : 61 ∉ name) (hkey : 61 ∉ key) :
    (name ++ [61]).isPrefixOf (key ++ 61 :: t) = true ↔ name = key := by
  induction name generalizing key with
  | nil =>
    cases key with
    | nil => simp [List.isPrefixOf]
    | cons c k =>
      have : ¬ (61 = c) := fun h => hkey (by simp [h])
      simp [List.isPrefixOf, this]
  | cons a n ih =>
    have ha : ¬ (a = 61) := fun h => hname (by simp [h])
    cases key with
    | nil => simp [List.isPrefixOf, ha]
    | cons c k =>
      have hn : 61 ∉ n := fun h => hname (List.mem_cons_of_mem _ h)
      have hk : 61 ∉ k := fun h => hkey (List.mem_cons_of_mem _ h)
      simp [List.isPrefixOf, ih k hn hk]

theorem queryTail_cons (k e : JSString) (ps : List (JSString × JSString)) :
    queryTail ((k, e) :: ps) = 38 :: (k ++ 61 :: (e ++ queryTail ps)) := by
  simp [queryTail]

theorem queryTail_head (ps : List (JSString × JSString)) :
    ∀ x, (queryTail ps).head? = some x → x = 38 ∨ x = 35 := by
  intro x hx
  cases ps with
  | nil => simp [queryTail] at hx
  | cons p rest =>
    obtain ⟨k, e⟩ := p
    rw [queryTail_cons] at hx
    simp at hx
    exact Or.inl hx.symm

theorem ne_of_isQuerySafe {x : Nat} (h : isQuerySafe x = true) :
    x ≠ 38 ∧ x ≠ 35 ∧ x ≠ 63 ∧ x ≠ 61 := by
  simpa [isQuerySafe, and_assoc] using h

/-- One step of the scan over a parameter list: at a separator followed by `key=value`, the value
is returned when the key is the name, otherwise the scan goes on behind the value. -/
theorem exec_param (name k e : JSString) (ps : List (JSString × JSString)) (sep : Nat)
    (hsep : sep = 63 ∨ sep = 38) (hname : 61 ∉ name)
    (hk : ∀ x ∈ k, isQuerySafe x = true) (he : ∀ x ∈ e, isQuerySafe x = true) :
    exec name (sep :: (k ++ 61 :: (e ++ queryTail ps))) =
      if name = k then some e else exec name (queryTail ps) := by
  have hk61 : 61 ∉ k := fun h => (ne_of_isQuerySafe (hk 61 h)).2.2.2 rfl
  have hev : ∀ x ∈ e, x ≠ 38 ∧ x ≠ 35 := fun x hx =>
    ⟨(ne_of_isQuerySafe (he x hx)).1, (ne_of_isQuerySafe (he x hx)).2.1⟩
  by_cases hnk : name = k
  · subst hnk
    rw [exec, matchAt_hit name e (queryTail ps) sep hsep hev (queryTail_head ps)]
    simp
  · have hpre : (name ++ [61]).isPrefixOf (k ++ 61 :: (e ++ queryTail ps)) = false := by
      cases hp : (name ++ [61]).isPrefixOf (k ++ 61 :: (e ++ queryTail ps)) with
      | false => rfl
      | true => exact absurd ((isPrefixOf_key name k _ hname hk61).1 hp) hnk
    have hm : matchAt name (sep :: (k ++ 61 :: (e ++ queryTail ps))) = none := by
      simp [matchAt, hpre]
    rw [exec]
    simp only [hm, hnk, ↓reduceIte]
    have hsplit : k ++ 61 :: (e ++ queryTail ps) = (k ++ 61 :: e) ++ queryTail ps := by simp
    rw [hsplit]
    apply exec_skip_plain
    intro x hx
    simp only [List.mem_append, List.mem_cons] at hx
    rcases hx with hx | rfl | hx
    · exact ⟨(ne_of_isQuerySafe (hk x hx)).2.2.1, (ne_of_isQuerySafe (hk x hx)).1⟩
    · decide
    · exact ⟨(ne_of_isQuerySafe (he x hx)).2.2.1, (ne_of_isQuerySafe (he x hx)).1⟩

/-- The scan over `&key=value&key=value...` returns the value of the first parameter whose key
is the name. -/
theorem exec_queryTail (name : JSString) (hname : 61 ∉ name) (ps : List (JSString × JSString))
    (hps : ∀ p ∈ ps, (∀ x ∈ p.1, isQuerySafe x = true) ∧ ∀ x ∈ p.2, isQuerySafe x = true) :
    exec name (queryTail ps) = firstValue name ps := by
  induction ps with
  | nil => rfl
  | cons p rest ih =>
    obtain ⟨k, e⟩ := p
    have hp := hps (k, e) (List.mem_cons_self _ _)
    rw [queryTail_cons, exec_param name k e rest 38 (Or.inr rfl) hname hp.1 hp.2, firstValue,
      ih fun q hq => hps q (List.mem_cons_of_mem _ hq)]

/-- The scan over a URL `base?key=value&key=value...` whose base has no `?` and no `&`. -/
theorem exec_url (name base : JSString) (hname : 61 ∉ name)
    (hbase : ∀ x ∈ base, x ≠ 63 ∧ x ≠ 38) (ps : List (JSString × JSString))
    (hps : ∀ p ∈ ps, (∀ x ∈ p.1, isQuerySafe x = true) ∧ ∀ x ∈ p.2, isQuerySafe x = true) :
    exec name (base ++ 63 :: (queryTail ps).tail) = firstValue name ps := by
  rw [exec_skip_plain name base _ hbase]
  cases ps with
  | nil => simp [queryTail, exec, matchAt, firstValue, List.isPrefixOf]
  | cons p rest =>
    obtain ⟨k, e⟩ := p
    have hp := hps (k, e) (List.mem_cons_self _ _)
    rw [queryTail_cons, List.tail_cons,
      exec_param name k e rest 63 (Or.inl rfl) hname hp.1 hp.2, firstValue,
      exec_queryTail name hname rest fun q hq => hps q (List.mem_cons_of_mem _ hq)]

/-! ## `makeUrl` and `authorizeUrl` -/

theorem dropLast_append_amp (p : JSString) : (p ++ [38]).dropLast = p := by
  simp

/-- The authorize URL as a base, a `?`, and the encoded parameters joined by `&`. -/
theorem authorizeUrl_query {ε δ : Type} (cfg : AuthConfig ε δ) :
    authorizeUrl cfg =
      (encodeURIComponent cfg.clientSecret).bind fun e1 =>
      (encodeURIComponent cfg.clientId).bind fun e2 =>
      (encodeURIComponent cfg.redirectUri).bind fun e3 =>
      (encodeURIComponent (scopeOrBasic cfg.scope)).bind fun e4 =>
        some (js "https://app.metry.io/oauth/authorize" ++
          63 :: (queryTail (encodedParams e1 e2 e3 e4)).tail) := by
  have hA : js "https://app.metry.io/oauth/authorize" =
      List.intercalate [47] (fullPath [some BASE_URL, some PATH_AUTHORIZE]) := by decide
  have h1 : encodeURIComponent (js "authorization_code") = some (js "authorization_code") := by
    decide
  have h2 : encodeURIComponent (js "code") = some (js "code") := by decide
  have h3 : encodeURIComponent (js "emAuth") = some (js "emAuth") := by decide
  unfold authorizeUrl makeUrl authorizeParams encodedParams
  rw [hA]
  generalize List.intercalate [47] (fullPath [some BASE_URL, some PATH_AUTHORIZE]) = base
  simp only [appendParams, h1, h2, h3]
  cases encodeURIComponent cfg.clientSecret with
  | none => rfl
  | some e1 =>
    cases encodeURIComponent cfg.clientId with
    | none => rfl
    | some e2 =>
      cases encodeURIComponent cfg.redirectUri with
      | none => rfl
      | some e3 =>
        cases encodeURIComponent (scopeOrBasic cfg.scope) with
        | none => rfl
        | some e4 =>
          simp only [Option.map_some', Option.some_bind, dropLast_append_amp]
          simp [queryTail]

/-- C1: `authorizeUrl()` is exactly
`"https://app.metry.io/oauth/authorize?client_secret=" + enc(clientSecret) + "&client_id=" +
enc(clientId) + "&redirect_uri=" + enc(redirectUri) +
"&grant_type=authorization_code&response_type=code&state=emAuth&scope=" + enc(scope || "basic")`
with `enc = encodeURIComponent`, the four encodings taken in the order the parameters are
written; it throws exactly when one of them throws, and it is a function of the configuration
alone. -/
theorem authorizeUrl_exact {ε δ : Type} (cfg : AuthConfig ε δ) :
    authorizeUrl cfg =
      (encodeURIComponent cfg.clientSecret).bind fun e1 =>
      (encodeURIComponent cfg.clientId).bind fun e2 =>
      (encodeURIComponent cfg.redirectUri).bind fun e3 =>
      (encodeURIComponent (scopeOrBasic cfg.scope)).bind fun e4 =>
        some (js "https://app.metry.io/oauth/authorize?client_secret=" ++ e1 ++
          js "&client_id=" ++ e2 ++ js "&redirect_uri=" ++ e3 ++
          js "&grant_type=authorization_code&response_type=code&state=emAuth&scope=" ++ e4) := by
  have hA : js "https://app.metry.io/oauth/authorize?client_secret=" =
      js "https://app.metry.io/oauth/authorize" ++ [63] ++ js "client_secret" ++ [61] := by
    decide
  have hB : js "&client_id=" = 38 :: (js "client_id" ++ [61]) := by decide
  have hC : js "&redirect_uri=" = 38 :: (js "redirect_uri" ++ [61]) := by decide
  have hD : js "&grant_type=authorization_code&response_type=code&state=emAuth&scope=" =
      38 :: (js "grant_type" ++ [61] ++ js "authorization_code" ++ [38] ++
        js "response_type" ++ [61] ++ js "code" ++ [38] ++
        js "state" ++ [61] ++ js "emAuth" ++ [38] ++ js "scope" ++ [61]) := by decide
  rw [authorizeUrl_query, hA, hB, hC, hD]
  unfold encodedParams
  generalize js "https://app.metry.io/oauth/authorize" = base
  generalize js "client_secret" = k1
  generalize js "client_id" = k2
  generalize js "redirect_uri" = k3
  generalize js "grant_type" = k4
  generalize js "response_type" = k5
  generalize js "state" = k6
  generalize js "scope" = k7
  cases encodeURIComponent cfg.clientSecret with
  | none => rfl
  | some e1 =>
    cases encodeURIComponent cfg.clientId with
    | none => rfl
    | some e2 =>
      cases encodeURIComponent cfg.redirectUri with
      | none => rfl
      | some e3 =>
        cases encodeURIComponent (scopeOrBasic cfg.scope) with
        | none => rfl
        | some e4 => simp [queryTail]

/-! ## `getParam` -/

/-- C2: when the leftmost `?code=` or `&code=` of a URL is followed by a value `v` without
`&` and `#`, itself followed by `&`, `#` or the end of the string, `getParam('code', url)` is
exactly `v`, undecoded; and `getParam('code',
"https://example.com/cb?code=ABC123&state=emAuth")` is `"ABC123"`. -/
theorem getParam_code_value (pre v rest : JSString) (sep : Nat) (hsep : sep = 63 ∨ sep = 38)
    (hleft : ∀ i, i < pre.length →
      keyAt (js "code") (pre ++ sep :: (js "code=" ++ v ++ rest)) i = false)
    (hv : ∀ x ∈ v, x ≠ 38 ∧ x ≠ 35)
    (hrest : ∀ x, rest.head? = some x → x = 38 ∨ x = 35) :
    getParam (js "code") (pre ++ sep :: (js "code=" ++ v ++ rest)) = some v ∧
      getParam (js "code") (js "https://example.com/cb?code=ABC123&state=emAuth") =
        some (js "ABC123") := by
  refine ⟨?_, by decide⟩
  have hlit : js "code=" = js "code" ++ [61] := by decide
  unfold getParam
  rw [exec_skip_clean (js "code") pre _ hleft, hlit]
  have hshape : js "code" ++ [61] ++ v ++ rest = js "code" ++ 61 :: (v ++ rest) := by simp
  rw [hshape, exec, matchAt_hit (js "code") v rest sep hsep hv hrest]

theorem getParam_code_value_witness :
    getParam (js "code") (js "https://example.com/cb" ++ 63 ::
        (js "code=" ++ js "a%20b" ++ js "#frag")) = some (js "a%20b") ∧
      getParam (js "code") (js "https://example.com/cb?code=ABC123&state=emAuth") =
        some (js "ABC123") :=
  getParam_code_value (js "https://example.com/cb") (js "a%20b") (js "#frag") 63
    (Or.inl rfl) (by decide) (by decide) (by decide)

/-- C3, as stated, fails: the query component of
`https://example.com/cb?state=emAuth#&code=XYZ` is `state=emAuth`, with the single parameter
`state`, and `getParam('code', url)` is `"XYZ"`, taken from the fragment. -/
theorem getParam_code_outside_query :
    queryComponent (js "https://example.com/cb?state=emAuth#&code=XYZ") = js "state=emAuth" ∧
      queryParamNames (js "https://example.com/cb?state=emAuth#&code=XYZ") = [js "state"] ∧
      js "code" ∉ queryParamNames (js "https://example.com/cb?state=emAuth#&code=XYZ") ∧
      getParam (js "code") (js "https://example.com/cb?state=emAuth#&code=XYZ") =
        some (js "XYZ") := by
  decide

/-- C3, amended: `getParam('code', url)` is `null` exactly for the URL strings in which neither
`?code=` nor `&code=` occurs at any index, whether in the query, in the fragment or elsewhere. -/
theorem getParam_code_null_iff (url : JSString) :
    getParam (js "code") url = none ↔ ∀ i, keyAt (js "code") url i = false :=
  exec_eq_none_iff (js "code") url

/-! ## `getParam` on the authorize URL -/

/-- A name of letters, digits and `_` has no `=` in it. -/
theorem not_mem_eq_of_isPlainName (name : JSString) (h : isPlainName name = true) :
    61 ∉ name := by
  intro hmem
  have h61 := (List.all_eq_true.1 h) 61 hmem
  revert h61
  decide

/-- The seven keys of the authorize URL, and `code`, are names of letters, digits and `_`. -/
theorem isPlainName_keys {ε δ : Type} (cfg : AuthConfig ε δ) :
    (∀ k ∈ (authorizeParams cfg).map Prod.fst, isPlainName k = true) ∧
      isPlainName (js "code") = true := by
  refine ⟨?_, by decide⟩
  intro k hk
  simp only [authorizeParams, List.map_cons, List.map_nil, List.mem_cons, List.mem_singleton,
    List.not_mem_nil, or_false] at hk
  rcases hk with rfl | rfl | rfl | rfl | rfl | rfl | rfl <;> decide

/-- On an authorize URL, `getParam` returns the first encoded value stored under the name. -/
theorem getParam_encodedUrl (name e1 e2 e3 e4 : JSString) (hname : 61 ∉ name)
    (h1 : ∀ x ∈ e1, isQuerySafe x = true) (h2 : ∀ x ∈ e2, isQuerySafe x = true)
    (h3 : ∀ x ∈ e3, isQuerySafe x = true) (h4 : ∀ x ∈ e4, isQuerySafe x = true) :
    getParam name (js "https://app.metry.io/oauth/authorize" ++
        63 :: (queryTail (encodedParams e1 e2 e3 e4)).tail) =
      firstValue name (encodedParams e1 e2 e3 e4) := by
  unfold getParam
  apply exec_url name _ hname (by decide)
  intro p hp
  simp only [encodedParams, List.mem_cons, List.mem_singleton, List.not_mem_nil, or_false] at hp
  rcases hp with rfl | rfl | rfl | rfl | rfl | rfl | rfl
  · exact ⟨(by decide : ∀ x ∈ js "client_secret", isQuerySafe x = true), h1⟩
  · exact ⟨(by decide : ∀ x ∈ js "client_id", isQuerySafe x = true), h2⟩
  · exact ⟨(by decide : ∀ x ∈ js "redirect_uri", isQuerySafe x = true), h3⟩
  · exact ⟨by decide, by decide⟩
  · exact ⟨by decide, by decide⟩
  · exact ⟨by decide, by decide⟩
  · exact ⟨(by decide : ∀ x ∈ js "scope", isQuerySafe x = true), h4⟩

/-- What a returned authorize URL is made of: the four encodings exist and the URL is the base,
a `?`, and the encoded parameters. -/
theorem authorizeUrl_some {ε δ : Type} (cfg : AuthConfig ε δ) (url : JSString)
    (h : authorizeUrl cfg = some url) :
    ∃ e1 e2 e3 e4, encodeURIComponent cfg.clientSecret = some e1 ∧
      encodeURIComponent cfg.clientId = some e2 ∧
      encodeURIComponent cfg.redirectUri = some e3 ∧
      encodeURIComponent (scopeOrBasic cfg.scope) = some e4 ∧
      url = js "https://app.metry.io/oauth/authorize" ++
        63 :: (queryTail (encodedParams e1 e2 e3 e4)).tail := by
  rw [authorizeUrl_query] at h
  simp only [Option.bind_eq_some] at h
  obtain ⟨e1, h1, e2, h2, e3, h3, e4, h4, hu⟩ := h
  exact ⟨e1, e2, e3, e4, h1, h2, h3, h4, (Option.some.inj hu).symm⟩

/-- C10: on the URL returned by `authorizeUrl()`, `getParam` of each of the seven keys
(`client_secret`, `client_id`, `redirect_uri`, `grant_type`, `response_type`, `state`, `scope`)
is `encodeURIComponent` of the value `authorizeUrl` assigned to that key, whatever code units the
configured values contain; and `getParam` of any other name made of letters, digits and `_`
is `null`, so no value makes another parameter appear. -/
theorem getParam_authorizeUrl {ε δ : Type} (cfg : AuthConfig ε δ) (url : JSString)
    (h : authorizeUrl cfg = some url) (k v : JSString) (hkv : (k, v) ∈ authorizeParams cfg) :
    (authorizeParams cfg).map Prod.fst =
        [js "client_secret", js "client_id", js "redirect_uri", js "grant_type",
          js "response_type", js "state", js "scope"] ∧
      (∃ e, encodeURIComponent v = some e ∧ getParam k url = some e) ∧
      ∀ name, isPlainName name = true → name ∉ (authorizeParams cfg).map Prod.fst →
        getParam name url = none := by
  obtain ⟨e1, e2, e3, e4, h1, h2, h3, h4, rfl⟩ := authorizeUrl_some cfg url h
  have s1 := isQuerySafe_encodeURIComponent _ e1 h1
  have s2 := isQuerySafe_encodeURIComponent _ e2 h2
  have s3 := isQuerySafe_encodeURIComponent _ e3 h3
  have s4 := isQuerySafe_encodeURIComponent _ e4 h4
  refine ⟨rfl, ?_, ?_⟩
  case refine_2 =>
    intro name hplain hnot
    rw [getParam_encodedUrl _ e1 e2 e3 e4 (not_mem_eq_of_isPlainName name hplain) s1 s2 s3 s4]
    simp only [authorizeParams, List.map_cons, List.map_nil, List.mem_cons, List.mem_singleton,
      List.not_mem_nil, or_false, not_or] at hnot
    obtain ⟨n1, n2, n3, n4, n5, n6, n7⟩ := hnot
    simp [firstValue, encodedParams, n1, n2, n3, n4, n5, n6, n7]
  simp only [authorizeParams, List.mem_cons, List.mem_singleton, List.not_mem_nil, or_false,
    Prod.mk.injEq] at hkv
  rcases hkv with ⟨rfl, rfl⟩ | ⟨rfl, rfl⟩ | ⟨rfl, rfl⟩ | ⟨rfl, rfl⟩ | ⟨rfl, rfl⟩ | ⟨rfl, rfl⟩ |
    ⟨rfl, rfl⟩
  · exact ⟨e1, h1, by
      rw [getParam_encodedUrl _ e1 e2 e3 e4 (by decide) s1 s2 s3 s4]
      simp +decide [firstValue, encodedParams]⟩
  · exact ⟨e2, h2, by
      rw [getParam_encodedUrl _ e1 e2 e3 e4 (by decide) s1 s2 s3 s4]
      simp +decide [firstValue, encodedParams]⟩
  · exact ⟨e3, h3, by
      rw [getParam_encodedUrl _ e1 e2 e3 e4 (by decide) s1 s2 s3 s4]
      simp +decide [firstValue, encodedParams]⟩
  · exact ⟨js "authorization_code", by decide, by
      rw [getParam_encodedUrl _ e1 e2 e3 e4 (by decide) s1 s2 s3 s4]
      simp +decide [firstValue, encodedParams]⟩
  · exact ⟨js "code", by decide, by
      rw [getParam_encodedUrl _ e1 e2 e3 e4 (by decide) s1 s2 s3 s4]
      simp +decide [firstValue, encodedParams]⟩
  · exact ⟨js "emAuth", by decide, by
      rw [getParam_encodedUrl _ e1 e2 e3 e4 (by decide) s1 s2 s3 s4]
      simp +decide [firstValue, encodedParams]⟩
  · exact ⟨e4, h4, by
      rw [getParam_encodedUrl _ e1 e2 e3 e4 (by decide) s1 s2 s3 s4]
      simp +decide [firstValue, encodedParams]⟩

theorem getParam_authorizeUrl_witness :
    (authorizeParams hostileConfig).map Prod.fst =
        [js "client_secret", js "client_id", js "redirect_uri", js "grant_type",
          js "response_type", js "state", js "scope"] ∧
      (∃ e, encodeURIComponent (js "x&code=1#y") = some e ∧
        getParam (js "client_id") hostileUrl = some e) ∧
      ∀ name, isPlainName name = true → name ∉ (authorizeParams hostileConfig).map Prod.fst →
        getParam name hostileUrl = none :=
  getParam_authorizeUrl hostileConfig hostileUrl (by decide) (js "client_id")
    (js "x&code=1#y") (by decide)

/-! ## The scope sent -/

theorem tokenUrl_with_params :
    makeUrl [some BASE_URL, some PATH_TOKEN] (some []) =
      some (js "https://app.metry.io/oauth/token") := by
  decide

theorem tokenUrl_without_params :
    makeUrl [some BASE_URL, some PATH_TOKEN] none =
      some (js "https://app.metry.io/oauth/token") := by
  decide

/-- The scope field of the code-exchange form is `scope || 'basic'`. -/
theorem handleAuthCodeRequest_scope {ε δ : Type} (cfg : AuthConfig ε δ) (code : JSString) :
    (handleAuthCodeRequest cfg code).map (fun r => r.body.getAll (js "scope")) =
      some [scopeOrBasic cfg.scope] := by
  unfold handleAuthCodeRequest
  rw [tokenUrl_with_params]
  simp +decide [FormData.getAll, List.filter]

/-- The scope field of the refresh form is `scope || 'basic'`. -/
theorem fetchAccessTokenRequest_scope {ε δ : Type} (cfg : AuthConfig ε δ)
    (refreshToken : JSString) :
    (fetchAccessTokenRequest cfg refreshToken).map (fun r => r.body.getAll (js "scope")) =
      some [scopeOrBasic cfg.scope] := by
  unfold fetchAccessTokenRequest
  rw [tokenUrl_without_params]
  simp +decide [FormData.getAll, List.filter]

/-- The scope parameter of a returned authorize URL is the encoding of `scope || 'basic'`. -/
theorem authorizeUrl_scope {ε δ : Type} (cfg : AuthConfig ε δ) (url : JSString)
    (h : authorizeUrl cfg = some url) :
    ∃ e, encodeURIComponent (scopeOrBasic cfg.scope) = some e ∧
      getParam (js "scope") url = some e := by
  obtain ⟨e1, e2, e3, e4, h1, h2, h3, h4, rfl⟩ := authorizeUrl_some cfg url h
  refine ⟨e4, h4, ?_⟩
  rw [getParam_encodedUrl _ e1 e2 e3 e4 (by decide)
    (isQuerySafe_encodeURIComponent _ e1 h1) (isQuerySafe_encodeURIComponent _ e2 h2)
    (isQuerySafe_encodeURIComponent _ e3 h3) (isQuerySafe_encodeURIComponent _ e4 h4)]
  simp +decide [firstValue, encodedParams]

/-- C4, as stated, fails: with the supplied scope `""` the authorize URL and both token forms
carry `basic`, not the supplied string. -/
theorem empty_scope_is_basic :
    emptyScopeConfig.scope = some (js "") ∧
      (authorizeUrl emptyScopeConfig).bind (getParam (js "scope")) = some (js "basic") ∧
      encodeURIComponent (js "") = some (js "") ∧
      (handleAuthCodeRequest emptyScopeConfig (js "ABC123")).map
          (fun r => r.body.getAll (js "scope")) = some [js "basic"] ∧
      (fetchAccessTokenRequest emptyScopeConfig (js "R1")).map
          (fun r => r.body.getAll (js "scope")) = some [js "basic"] ∧
      js "basic" ≠ js "" := by
  decide

/-- C4, amended: when the scope is omitted or is the empty string, the scope parameter of the
authorize URL and the scope fields of the forms sent by `handleAuthCode` and by
`fetchAccessToken` are all `basic`; when the scope is a supplied non-empty string, all three
carry that string, the URL in its encoded form. -/
theorem scope_sent {ε δ : Type} (cfg : AuthConfig ε δ) (code refreshToken url : JSString)
    (hurl : authorizeUrl cfg = some url) :
    (cfg.scope = none ∨ cfg.scope = some [] →
        getParam (js "scope") url = some (js "basic") ∧
        (handleAuthCodeRequest cfg code).map (fun r => r.body.getAll (js "scope")) =
          some [js "basic"] ∧
        (fetchAccessTokenRequest cfg refreshToken).map (fun r => r.body.getAll (js "scope")) =
          some [js "basic"]) ∧
      (∀ s, cfg.scope = some s → s ≠ [] →
        (∃ e, encodeURIComponent s = some e ∧ getParam (js "scope") url = some e) ∧
        (handleAuthCodeRequest cfg code).map (fun r => r.body.getAll (js "scope")) =
          some [s] ∧
        (fetchAccessTokenRequest cfg refreshToken).map (fun r => r.body.getAll (js "scope")) =
          some [s]) := by
  have hu := authorizeUrl_scope cfg url hurl
  have hc := handleAuthCodeRequest_scope cfg code
  have hf := fetchAccessTokenRequest_scope cfg refreshToken
  constructor
  · intro h
    have hs : scopeOrBasic cfg.scope = js "basic" := by
      rcases h with h | h <;> simp [scopeOrBasic, h]
    rw [hs] at hu hc hf
    obtain ⟨e, he, hg⟩ := hu
    have hb : encodeURIComponent (js "basic") = some (js "basic") := by decide
    rw [hb] at he
    exact ⟨by rw [hg, ← Option.some.inj he], hc, hf⟩
  · intro s h hne
    have hs : scopeOrBasic cfg.scope = s := by simp [scopeOrBasic, h, hne]
    rw [hs] at hu hc hf
    exact ⟨hu, hc, hf⟩

theorem scope_sent_witness :
    (readScopeConfig.scope = none ∨ readScopeConfig.scope = some [] →
        getParam (js "scope")
            (js ("https://app.metry.io/oauth/authorize?client_secret=secret&client_id=id" ++
              "&redirect_uri=https%3A%2F%2Fexample.com%2Fcb&grant_type=authorization_code" ++
              "&response_type=code&state=emAuth&scope=read%20write")) = some (js "basic") ∧
        (handleAuthCodeRequest readScopeConfig (js "ABC123")).map
            (fun r => r.body.getAll (js "scope")) = some [js "basic"] ∧
        (fetchAccessTokenRequest readScopeConfig (js "R1")).map
            (fun r => r.body.getAll (js "scope")) = some [js "basic"]) ∧
      (∀ s, readScopeConfig.scope = some s → s ≠ [] →
        (∃ e, encodeURIComponent s = some e ∧
          getParam (js "scope")
            (js ("https://app.metry.io/oauth/authorize?client_secret=secret&client_id=id" ++
              "&redirect_uri=https%3A%2F%2Fexample.com%2Fcb&grant_type=authorization_code" ++
              "&response_type=code&state=emAuth&scope=read%20write")) = some e) ∧
        (handleAuthCodeRequest readScopeConfig (js "ABC123")).map
            (fun r => r.body.getAll (js "scope")) = some [s] ∧
        (fetchAccessTokenRequest readScopeConfig (js "R1")).map
            (fun r => r.body.getAll (js "scope")) = some [s]) :=
  scope_sent readScopeConfig (js "ABC123") (js "R1") _ (by decide)

/-! ## The code exchange -/

theorem handleAuthCodeRequest_isSome {ε δ : Type} (cfg : AuthConfig ε δ) (code : JSString) :
    ∃ request, handleAuthCodeRequest cfg code = some request := by
  unfold handleAuthCodeRequest
  rw [tokenUrl_with_params]
  exact ⟨_, rfl⟩

theorem gotTokenEvent_type {δ : Type} (hasCustomEvent : Bool) (d : δ) :
    (gotTokenEvent hasCustomEvent d).type = js "Metry:GotToken" ∧
      (gotTokenEvent hasCustomEvent d).detail = d := by
  cases hasCustomEvent <;> exact ⟨rfl, rfl⟩

/-- C5, as stated, fails: when the exchange succeeds with payload `7` and the configured
callback throws, the callback has run once, no event is dispatched and the thrown value is
logged, in either branch of the event construction. -/
theorem throwing_callback_no_event :
    (handleAuthCode throwingConfig true (js "ABC123") (.ok ⟨.ok 7⟩)).map
        (fun r => (callbackArgs r.2.effects, (dispatched r.2.effects).length,
          logged r.2.effects)) = some ([7], 0, [js "boom"]) ∧
      (handleAuthCode throwingConfig false (js "ABC123") (.ok ⟨.ok 7⟩)).map
        (fun r => (callbackArgs r.2.effects, (dispatched r.2.effects).length,
          logged r.2.effects)) = some ([7], 0, [js "boom"]) := by
  decide

/-- C5, amended: when the token request and the parsing of its response succeed with payload `d`
and the configured `onSuccess` callback returns without throwing, `handleAuthCode` calls
`onSuccess` exactly once and dispatches exactly one event, named `Metry:GotToken`, and the
argument of the callback and the detail of the event are both `d`. -/
theorem handleAuthCode_success {ε δ : Type} (cfg : AuthConfig ε δ) (hasCustomEvent : Bool)
    (code : JSString) (response : Response ε δ) (d : δ) (f : δ → Option ε)
    (hf : cfg.onSuccess = some f) (hjson : response.json = .ok d) (hret : f d = none) :
    ∃ request run, handleAuthCode cfg hasCustomEvent code (.ok response) = some (request, run) ∧
      run.effects = [Effect.callback d, Effect.dispatch (gotTokenEvent hasCustomEvent d)] ∧
      callbackArgs run.effects = [d] ∧
      (∃ ev, dispatched run.effects = [ev] ∧ ev.type = js "Metry:GotToken" ∧ ev.detail = d) ∧
      logged run.effects = [] ∧
      run.result = .ok () := by
  obtain ⟨request, hreq⟩ := handleAuthCodeRequest_isSome cfg code
  have hrun : handleAuthCodeSettle cfg hasCustomEvent (.ok response) =
      ⟨[Effect.callback d, Effect.dispatch (gotTokenEvent hasCustomEvent d)], .ok ()⟩ := by
    simp [handleAuthCodeSettle, Run.settled, Run.andThen, Run.orCatch, onData, callOnSuccess,
      hf, hjson, hret]
  refine ⟨request, ⟨[Effect.callback d, Effect.dispatch (gotTokenEvent hasCustomEvent d)],
    .ok ()⟩, by simp [handleAuthCode, hreq, hrun], ?_⟩
  exact ⟨rfl, rfl, ⟨_, rfl, (gotTokenEvent_type hasCustomEvent d).1,
    (gotTokenEvent_type hasCustomEvent d).2⟩, rfl, rfl⟩

theorem handleAuthCode_success_witness :
    ∃ request run, handleAuthCode quietConfig true (js "ABC123") (.ok ⟨.ok 7⟩) =
        some (request, run) ∧
      run.effects = [Effect.callback 7, Effect.dispatch (gotTokenEvent true 7)] ∧
      callbackArgs run.effects = [7] ∧
      (∃ ev, dispatched run.effects = [ev] ∧ ev.type = js "Metry:GotToken" ∧ ev.detail = 7) ∧
      logged run.effects = [] ∧
      run.result = .ok () :=
  handleAuthCode_success quietConfig true (js "ABC123") ⟨.ok 7⟩ 7 (fun _ => none) rfl rfl rfl

/-- C6: when the token request fails, or its response cannot be parsed, with error `e`,
`handleAuthCode` calls `onSuccess` zero times and dispatches zero events; the call itself
returns, the chain ends fulfilled, and `e` is logged once. -/
theorem handleAuthCode_failure {ε δ : Type} (cfg : AuthConfig ε δ) (hasCustomEvent : Bool)
    (code : JSString) (net : Except ε (Response ε δ)) (e : ε)
    (hnet : net = .error e ∨ ∃ response, net = .ok response ∧ response.json = .error e) :
    ∃ request run, handleAuthCode cfg hasCustomEvent code net = some (request, run) ∧
      callbackArgs run.effects = [] ∧
      dispatched run.effects = [] ∧
      logged run.effects = [e] ∧
      run.result = .ok () := by
  obtain ⟨request, hreq⟩ := handleAuthCodeRequest_isSome cfg code
  have hrun : handleAuthCodeSettle cfg hasCustomEvent net = ⟨[Effect.log e], .ok ()⟩ := by
    rcases hnet with rfl | ⟨response, rfl, hjson⟩
    · simp [handleAuthCodeSettle, Run.settled, Run.andThen, Run.orCatch]
    · simp [handleAuthCodeSettle, Run.settled, Run.andThen, Run.orCatch, hjson]
  refine ⟨request, ⟨[Effect.log e], .ok ()⟩, by simp [handleAuthCode, hreq, hrun], ?_⟩
  exact ⟨rfl, rfl, rfl, rfl⟩

theorem handleAuthCode_failure_witness :
    ∃ request run, handleAuthCode quietConfig true (js "ABC123") (.error (js "offline")) =
        some (request, run) ∧
      callbackArgs run.effects = [] ∧
      dispatched run.effects = [] ∧
      logged run.effects = [js "offline"] ∧
      run.result = .ok () :=
  handleAuthCode_failure quietConfig true (js "ABC123") (.error (js "offline")) (js "offline")
    (Or.inl rfl)

/-- C7: the event dispatched after a successful exchange is named `Metry:GotToken` and carries
the parsed data in both branches, but its `bubbles` and `cancelable` flags are `false` when
`window.CustomEvent` exists and `true` only in the legacy branch. -/
theorem gotToken_flags {ε δ : Type} (cfg : AuthConfig ε δ) (code : JSString) (d : δ) :
    (handleAuthCode ({ cfg with onSuccess := none } : AuthConfig ε δ) true code (.ok ⟨.ok d⟩)).map
        (fun r => (dispatched r.2.effects).map
          fun ev => (ev.type, ev.detail, ev.bubbles, ev.cancelable)) =
        some [(js "Metry:GotToken", d, false, false)] ∧
      (handleAuthCode ({ cfg with onSuccess := none } : AuthConfig ε δ) false code (.ok ⟨.ok d⟩)).map
        (fun r => (dispatched r.2.effects).map
          fun ev => (ev.type, ev.detail, ev.bubbles, ev.cancelable)) =
        some [(js "Metry:GotToken", d, true, true)] := by
  obtain ⟨request, hreq⟩ := handleAuthCodeRequest_isSome ({ cfg with onSuccess := none } : AuthConfig ε δ) code
  constructor <;>
    simp [handleAuthCode, hreq, handleAuthCodeSettle, Run.settled, Run.andThen, Run.orCatch,
      onData, callOnSuccess, dispatched, gotTokenEvent, newCustomEvent, initCustomEvent]

/-! ## The popup flow -/

/-- Once the interval is cleared, no firing changes the flow. -/
theorem poll_cleared {ε δ : Type} (cfg : AuthConfig ε δ) (ticks : List Observation) (st : Flow)
    (h : st.intervalActive = false) : poll cfg ticks st = st := by
  induction ticks with
  | nil => rfl
  | cons obs rest ih =>
    have hfire : fire cfg st obs = st := by simp [fire, h]
    show poll cfg rest (fire cfg st obs) = st
    rw [hfire]
    exact ih

theorem poll_append {ε δ : Type} (cfg : AuthConfig ε δ) (l₁ l₂ : List Observation) (st : Flow) :
    poll cfg (l₁ ++ l₂) st = poll cfg l₂ (poll cfg l₁ st) := by
  simp [poll, List.foldl_append]

/-- A firing that leaves the interval running ran the callback and changed nothing else. -/
theorem fire_active {ε δ : Type} (cfg : AuthConfig ε δ) (st : Flow) (obs : Observation)
    (h : (fire cfg st obs).intervalActive = true) :
    st.intervalActive = true ∧
      fire cfg st obs = { st with callbackRuns := st.callbackRuns + 1 } := by
  by_cases ha : st.intervalActive = true
  · refine ⟨ha, ?_⟩
    cases hc : obs.closed with
    | true => simp [fire, tick, ha, hc] at h
    | false =>
      cases hu : obs.url with
      | none => simp [fire, tick, ha, hc, hu]
      | some url =>
        cases hg : getParam (js "code") url with
        | none => simp [fire, tick, ha, hc, hu, hg]
        | some code =>
          by_cases hne : code = []
          · simp [fire, tick, ha, hc, hu, hg, hne]
          · simp [fire, tick, ha, hc, hu, hg, hne] at h
  · have hfire : fire cfg st obs = st := by simp [fire, ha]
    rw [hfire] at h
    exact absurd h ha

/-- While the interval is still running after some firings, each of them ran the callback and
nothing else happened. -/
theorem poll_active {ε δ : Type} (cfg : AuthConfig ε δ) (ticks : List Observation) (st : Flow)
    (h : (poll cfg ticks st).intervalActive = true) :
    st.intervalActive = true ∧
      poll cfg ticks st = { st with callbackRuns := st.callbackRuns + ticks.length } := by
  induction ticks generalizing st with
  | nil => exact ⟨h, rfl⟩
  | cons obs rest ih =>
    have h' : (poll cfg rest (fire cfg st obs)).intervalActive = true := h
    obtain ⟨hf, hp⟩ := ih (fire cfg st obs) h'
    obtain ⟨hs, hfe⟩ := fire_active cfg st obs hf
    refine ⟨hs, ?_⟩
    show poll cfg rest (fire cfg st obs) = _
    rw [hp, hfe]
    simp only [List.length_cons, Flow.mk.injEq, and_true, true_and]
    omega

/-- A firing that sees the popup open and finds no non-empty code only counts as a run of the
callback. -/
theorem fire_quiet {ε δ : Type} (cfg : AuthConfig ε δ) (st : Flow) (obs : Observation)
    (ha : st.intervalActive = true) (hopen : obs.closed = false)
    (hq : obs.url = none ∨ ∃ u, obs.url = some u ∧
      (getParam (js "code") u = none ∨ getParam (js "code") u = some [])) :
    fire cfg st obs = { st with callbackRuns := st.callbackRuns + 1 } := by
  rcases hq with hu | ⟨u, hu, hg | hg⟩
  · simp [fire, tick, ha, hopen, hu]
  · simp [fire, tick, ha, hopen, hu, hg]
  · simp [fire, tick, ha, hopen, hu, hg]

theorem poll_quiet {ε δ : Type} (cfg : AuthConfig ε δ) (ticks : List Observation) (st : Flow)
    (ha : st.intervalActive = true)
    (hq : ∀ obs ∈ ticks, obs.closed = false ∧ (obs.url = none ∨ ∃ u, obs.url = some u ∧
      (getParam (js "code") u = none ∨ getParam (js "code") u = some []))) :
    poll cfg ticks st = { st with callbackRuns := st.callbackRuns + ticks.length } := by
  induction ticks generalizing st with
  | nil => rfl
  | cons obs rest ih =>
    have ho := hq obs (List.mem_cons_self _ _)
    show poll cfg rest (fire cfg st obs) = _
    rw [fire_quiet cfg st obs ha ho.1 ho.2,
      ih { st with callbackRuns := st.callbackRuns + 1 } ha
        fun o hmem => hq o (List.mem_cons_of_mem _ hmem)]
    simp only [List.length_cons, Flow.mk.injEq, and_true, true_and]
    omega

/-- The code is handed over at most once: while the interval runs nothing has been handed over,
and afterwards at most one code has. -/
theorem fire_handled {ε δ : Type} (cfg : AuthConfig ε δ) (st : Flow) (obs : Observation)
    (h : (st.intervalActive = true → st.handled = []) ∧ st.handled.length ≤ 1) :
    ((fire cfg st obs).intervalActive = true → (fire cfg st obs).handled = []) ∧
      (fire cfg st obs).handled.length ≤ 1 := by
  by_cases ha : st.intervalActive = true
  · have hnil := h.1 ha
    cases hc : obs.closed with
    | true => simp [fire, tick, ha, hc, hnil]
    | false =>
      cases hu : obs.url with
      | none => simp [fire, tick, ha, hc, hu, hnil]
      | some url =>
        cases hg : getParam (js "code") url with
        | none => simp [fire, tick, ha, hc, hu, hg, hnil]
        | some code =>
          by_cases hne : code = [] <;> simp [fire, tick, ha, hc, hu, hg, hne, hnil]
  · have hfire : fire cfg st obs = st := by simp [fire, ha]
    rw [hfire]
    exact h

theorem poll_handled {ε δ : Type} (cfg : AuthConfig ε δ) (ticks : List Observation) (st : Flow)
    (h : (st.intervalActive = true → st.handled = []) ∧ st.handled.length ≤ 1) :
    (poll cfg ticks st).handled.length ≤ 1 := by
  induction ticks generalizing st with
  | nil => exact h.2
  | cons obs rest ih => exact ih (fire cfg st obs) (fire_handled cfg st obs h)

theorem openAuthenticatePopup_some {ε δ : Type} (cfg : AuthConfig ε δ) (st0 : Flow)
    (h0 : openAuthenticatePopup cfg = some st0) :
    ∃ authUrl, authorizeUrl cfg = some authUrl ∧
      st0 = { opened := authUrl, intervalActive := true, callbackRuns := 0, closeCalls := 0,
              handled := [], requests := [] } := by
  unfold openAuthenticatePopup at h0
  cases hu : authorizeUrl cfg with
  | none => simp [hu] at h0
  | some authUrl =>
    simp only [hu, Option.map_some', Option.some.injEq] at h0
    exact ⟨authUrl, rfl, h0.symm⟩

/-- C8: in a flow started by `openAuthenticatePopup`, take a firing at which the callback runs
(the interval has not been cleared before it), the popup is not closed and `getParam('code', url)`
is a non-empty code `c`; no earlier firing can have found a code, as it would have cleared the
interval.  At that firing the interval is cleared, the popup is closed once and `handleAuthCode`
is called with exactly `c`, issuing its one token request; no later firing runs the callback or
changes anything, and in every flow at most one code is ever handed over. -/
theorem poll_code_found {ε δ : Type} (cfg : AuthConfig ε δ) (st0 : Flow)
    (h0 : openAuthenticatePopup cfg = some st0) (pre post : List Observation)
    (obs : Observation) (url c : JSString)
    (hactive : (poll cfg pre st0).intervalActive = true)
    (hopen : obs.closed = false) (hurl : obs.url = some url)
    (hcode : getParam (js "code") url = some c) (hc : c ≠ []) :
    poll cfg (pre ++ [obs]) st0 =
        { opened := st0.opened
          intervalActive := false
          callbackRuns := pre.length + 1
          closeCalls := 1
          handled := [c]
          requests := (handleAuthCodeRequest cfg c).toList } ∧
      (∃ request, handleAuthCodeRequest cfg c = some request) ∧
      (poll cfg pre st0).handled = [] ∧
      poll cfg (pre ++ obs :: post) st0 = poll cfg (pre ++ [obs]) st0 ∧
      ∀ ticks, (poll cfg ticks st0).handled.length ≤ 1 := by
  obtain ⟨authUrl, _, rfl⟩ := openAuthenticatePopup_some cfg st0 h0
  have hpre := (poll_active cfg pre _ hactive).2
  dsimp only at hpre
  have hfound : poll cfg (pre ++ [obs])
      { opened := authUrl, intervalActive := true, callbackRuns := 0, closeCalls := 0,
        handled := [], requests := [] } =
      { opened := authUrl, intervalActive := false, callbackRuns := pre.length + 1,
        closeCalls := 1, handled := [c], requests := (handleAuthCodeRequest cfg c).toList } := by
    rw [poll_append, hpre]
    simp [poll, fire, tick, hopen, hurl, hcode, hc]
  refine ⟨hfound, handleAuthCodeRequest_isSome cfg c, by rw [hpre], ?_, ?_⟩
  · have hsplit : pre ++ obs :: post = (pre ++ [obs]) ++ post := by simp
    rw [hsplit, poll_append, hfound]
    exact poll_cleared cfg post _ rfl
  · intro ticks
    exact poll_handled cfg ticks _ ⟨fun _ => rfl, by simp⟩

/-- C9: in a flow started by `openAuthenticatePopup` whose firings, as long as the popup is not
closed, each read a URL with no code, read an empty code, or throw on the cross-origin read,
`handleAuthCode` is never called and no token request is issued; the firing that sees the popup
closed clears the interval and does nothing else, and no later firing changes anything. -/
theorem poll_popup_closed {ε δ : Type} (cfg : AuthConfig ε δ) (st0 : Flow)
    (h0 : openAuthenticatePopup cfg = some st0) (pre : List Observation)
    (hquiet : ∀ obs ∈ pre, obs.closed = false ∧ (obs.url = none ∨ ∃ u, obs.url = some u ∧
      (getParam (js "code") u = none ∨ getParam (js "code") u = some []))) :
    (poll cfg pre st0).handled = [] ∧ (poll cfg pre st0).requests = [] ∧
      (poll cfg pre st0).intervalActive = true ∧
      (∀ (st : Flow) (obs : Observation), obs.closed = true →
        tick cfg obs st = { st with intervalActive := false }) ∧
      ∀ (obs : Observation) (post : List Observation), obs.closed = true →
        poll cfg (pre ++ obs :: post) st0 =
          { opened := st0.opened
            intervalActive := false
            callbackRuns := pre.length + 1
            closeCalls := 0
            handled := []
            requests := [] } := by
  obtain ⟨authUrl, _, rfl⟩ := openAuthenticatePopup_some cfg st0 h0
  have hpre := poll_quiet cfg pre
    { opened := authUrl, intervalActive := true, callbackRuns := 0, closeCalls := 0,
      handled := [], requests := [] } rfl hquiet
  dsimp only at hpre
  refine ⟨by rw [hpre], by rw [hpre], by rw [hpre], ?_, ?_⟩
  · intro st obs hclosed
    simp [tick, hclosed]
  · intro obs post hclosed
    have hsplit : pre ++ obs :: post = (pre ++ [obs]) ++ post := by simp
    have hfire : poll cfg (pre ++ [obs])
        { opened := authUrl, intervalActive := true, callbackRuns := 0, closeCalls := 0,
          handled := [], requests := [] } =
        { opened := authUrl, intervalActive := false, callbackRuns := pre.length + 1,
          closeCalls := 0, handled := [], requests := [] } := by
      rw [poll_append, hpre]
      simp [poll, fire, tick, hclosed]
    rw [hsplit, poll_append, hfire]
    exact poll_cleared cfg post _ rfl

theorem poll_code_found_witness :
    poll quietConfig (sampleQuiet ++ [sampleFound]) sampleFlow =
        { opened := sampleFlow.opened
          intervalActive := false
          callbackRuns := sampleQuiet.length + 1
          closeCalls := 1
          handled := [js "ABC123"]
          requests := (handleAuthCodeRequest quietConfig (js "ABC123")).toList } ∧
      (∃ request, handleAuthCodeRequest quietConfig (js "ABC123") = some request) ∧
      (poll quietConfig sampleQuiet sampleFlow).handled = [] ∧
      poll quietConfig (sampleQuiet ++ sampleFound :: [sampleFound, ⟨true, none⟩]) sampleFlow =
        poll quietConfig (sampleQuiet ++ [sampleFound]) sampleFlow ∧
      ∀ ticks, (poll quietConfig ticks sampleFlow).handled.length ≤ 1 :=
  poll_code_found quietConfig sampleFlow (by decide) sampleQuiet [sampleFound, ⟨true, none⟩]
    sampleFound (js "https://example.com/cb?code=ABC123&state=emAuth") (js "ABC123")
    (by decide) rfl rfl (by decide) (by decide)

theorem poll_popup_closed_witness :
    (poll quietConfig sampleQuiet sampleFlow).handled = [] ∧
      (poll quietConfig sampleQuiet sampleFlow).requests = [] ∧
      (poll quietConfig sampleQuiet sampleFlow).intervalActive = true ∧
      (∀ (st : Flow) (obs : Observation), obs.closed = true →
        tick quietConfig obs st = { st with intervalActive := false }) ∧
      ∀ (obs : Observation) (post : List Observation), obs.closed = true →
        poll quietConfig (sampleQuiet ++ obs :: post) sampleFlow =
          { opened := sampleFlow.opened
            intervalActive := false
            callbackRuns := sampleQuiet.length + 1
            closeCalls := 0
            handled := []
            requests := [] } :=
  poll_popup_closed quietConfig sampleFlow (by decide) sampleQuiet (by
    intro obs hobs
    simp only [sampleQuiet, List.mem_cons, List.mem_singleton, List.not_mem_nil, or_false] at hobs
    rcases hobs with rfl | rfl | rfl
    · exact ⟨rfl, Or.inl rfl⟩
    · exact ⟨rfl, Or.inr ⟨_, rfl, Or.inl (by decide)⟩⟩
    · exact ⟨rfl, Or.inr ⟨_, rfl, Or.inr (by decide)⟩⟩)

/-! ## When `encodeURIComponent` returns -/

theorem not_surrogate_of_isUnreserved {c : Nat} (h : isUnreserved c = true) :
    isLeadingSurrogate c = false ∧ isTrailingSurrogate c = false := by
  simp only [isUnreserved, Bool.or_eq_true, Bool.and_eq_true, decide_eq_true_eq,
    beq_iff_eq] at h
  simp only [isLeadingSurrogate, isTrailingSurrogate, Bool.and_eq_false_iff,
    decide_eq_false_iff_not]
  omega

/-- The built-in returns exactly on the well-formed strings. -/
theorem encodeURIComponent_isSome (s : JSString) :
    (encodeURIComponent s).isSome = isWellFormed s := by
  induction s using encodeURIComponent.induct with
  | case1 => rfl
  | case2 c hc =>
    have hs := not_surrogate_of_isUnreserved hc
    simp [encodeURIComponent, isWellFormed, hc, hs.1, hs.2]
  | case3 c hc hs =>
    simp only [Bool.or_eq_true] at hs
    rcases hs with hs | hs <;> simp [encodeURIComponent, isWellFormed, hc, hs]
  | case4 c hc hs =>
    simp at hs
    simp [encodeURIComponent, isWellFormed, hc, hs]
  | case5 c d rest hc ih =>
    have hs := not_surrogate_of_isUnreserved hc
    simp [encodeURIComponent, isWellFormed, hc, hs.1, hs.2, ih]
  | case6 c d rest hc ht => simp [encodeURIComponent, isWellFormed, hc, ht]
  | case7 c d rest hc ht hl hd ih => simp [encodeURIComponent, isWellFormed, hc, ht, hl, hd, ih]
  | case8 c d rest hc ht hl hd => simp [encodeURIComponent, isWellFormed, hc, ht, hl, hd]
  | case9 c d rest hc ht hl ih => simp [encodeURIComponent, isWellFormed, hc, ht, hl, ih]

/-- The authorize URL is returned whenever the four configured strings are well-formed. -/
theorem authorizeUrl_isSome {ε δ : Type} (cfg : AuthConfig ε δ)
    (h1 : isWellFormed cfg.clientSecret = true) (h2 : isWellFormed cfg.clientId = true)
    (h3 : isWellFormed cfg.redirectUri = true)
    (h4 : isWellFormed (scopeOrBasic cfg.scope) = true) :
    ∃ url, authorizeUrl cfg = some url := by
  rw [← encodeURIComponent_isSome, Option.isSome_iff_exists] at h1 h2 h3 h4
  obtain ⟨e1, h1⟩ := h1
  obtain ⟨e2, h2⟩ := h2
  obtain ⟨e3, h3⟩ := h3
  obtain ⟨e4, h4⟩ := h4
  rw [authorizeUrl_query, h1, h2, h3, h4]
  exact ⟨_, rfl⟩

/-- A lone leading surrogate in `clientId` makes `authorizeUrl()` throw. -/
theorem authorizeUrl_lone_surrogate :
    authorizeUrl ({ hostileConfig with clientId := [55357] } : AuthConfig Unit Unit) = none := by
  decide

/-- A name with a pattern metacharacter, such as `scop.`, is not a name of letters, digits and
`_`: the statements about `getParam` do not speak of it. -/
theorem isPlainName_metacharacter :
    isPlainName (js "scop.") = false ∧ isPlainName (js "a[[b") = false ∧
      isPlainName (js "(") = false := by
  decide

end MetryOAuth
